import Mathlib

/-!
Verification of the sphere mesh generator (Sphere.js).

The development shallowly embeds `Sphere.js`: the smooth and flat mesh
builders (`buildVerticesSmooth` / `buildVerticesFlat`), the interleaver
(`buildInterleavedVertices`), the static face-normal helper
(`computeFaceNormal`), and the stateful setters (`set`, `setRadius`,
`setSectorCount`, `setStackCount`, `setSmooth`).

Geometry is embedded over an abstract linear ordered field `K`, with the
circle constant and the trigonometric / square-root routines passed as
parameters (`pi : K`, `c sn sq : K → K`).  Theorems that need actual
trigonometric identities instantiate `K := ℝ`, `pi := Real.pi`,
`c := Real.cos`, `sn := Real.sin`, `sq := Real.sqrt`; theorems about
counts and index topology hold for every instantiation and are decidable
at `K := ℚ`.

JavaScript `Float32Array`s are modelled as `List K` (for float data) and
`List ℕ` (for the index buffer): the builders write their arrays strictly
left to right starting at offset 0, so the sequence of written values is
the array.  Allocation sizes from `resizeArraysSmooth` / `resizeArraysFlat`
are embedded separately so that "the writes exactly fill the allocation"
is a provable statement.  Out-of-range reads never occur in the embedded
code paths; list reads use `List.getD _ 0`, matching the zero-initialised
typed arrays.
-/

/-- A record `(x, y, z, s, t)` as stored in `tmpVertices` by
`buildVerticesFlat`; the smooth builder computes the same quantities
inline with identical formulas. -/
structure Vtx (K : Type) where
  x : K
  y : K
  z : K
  s : K
  t : K

variable {K : Type} [LinearOrderedField K]

/-- The vertex of the `(stackCount+1) × (sectorCount+1)` parameter grid at
stack index `i`, sector index `j`:
`stackAngle = pi/2 - i*(pi/stackCount)`, `sectorAngle = j*(2*pi/sectorCount)`,
`x = r·cos(stackAngle)·cos(sectorAngle)`, `y = r·cos(stackAngle)·sin(sectorAngle)`,
`z = r·sin(stackAngle)`, `s = j/sectorCount`, `t = i/stackCount`. -/
def tmpVertex (pi : K) (c sn : K → K) (r : K) (se st i j : ℕ) : Vtx K :=
  let stackAngle : K := pi / 2 - (i : K) * (pi / (st : K))
  let xy : K := r * c stackAngle
  let z : K := r * sn stackAngle
  let sectorAngle : K := (j : K) * (2 * pi / (se : K))
  { x := xy * c sectorAngle
    y := xy * sn sectorAngle
    z := z
    s := (j : K) / (se : K)
    t := (i : K) / (st : K) }

/-- The `(i, j)` traversal order of the double loop
`for i in 0..stackCount, for j in 0..sectorCount` (both inclusive) used by
`buildVerticesSmooth` and by the `tmpVertices` pass of `buildVerticesFlat`. -/
def gridPairs (se st : ℕ) : List (ℕ × ℕ) :=
  (List.range (st + 1)).flatMap (fun i => (List.range (se + 1)).map (fun j => (i, j)))

/-- The `vertices` array written by `buildVerticesSmooth`: three floats
`x, y, z` per grid vertex, in loop order. -/
def smoothVertices (pi : K) (c sn : K → K) (r : K) (se st : ℕ) : List K :=
  (gridPairs se st).flatMap (fun p =>
    let v := tmpVertex pi c sn r se st p.1 p.2
    [v.x, v.y, v.z])

/-- The `normals` array written by `buildVerticesSmooth`:
`(nx, ny, nz) = (x, y, z) * lengthInv` with `lengthInv = 1/radius`. -/
def smoothNormals (pi : K) (c sn : K → K) (r : K) (se st : ℕ) : List K :=
  (gridPairs se st).flatMap (fun p =>
    let v := tmpVertex pi c sn r se st p.1 p.2
    let lengthInv : K := 1 / r
    [v.x * lengthInv, v.y * lengthInv, v.z * lengthInv])

/-- The `texCoords` array written by `buildVerticesSmooth`:
`(s, t) = (j/sectorCount, i/stackCount)` per grid vertex. -/
def smoothTexCoords (se st : ℕ) : List K :=
  (gridPairs se st).flatMap (fun p => [(p.2 : K) / (se : K), (p.1 : K) / (st : K)])

/-- The index array written by `buildVerticesSmooth`: per stack `i < stackCount`
and sector `j < sectorCount`, with `k1 = i*(sectorCount+1)+j` and
`k2 = k1+sectorCount+1`, triangle `(k1, k2, k1+1)` unless `i == 0`, then
triangle `(k1+1, k2, k2+1)` unless `i == stackCount-1`. -/
def smoothIndices (se st : ℕ) : List ℕ :=
  (List.range st).flatMap (fun i =>
    (List.range se).flatMap (fun j =>
      let k1 := i * (se + 1) + j
      let k2 := k1 + se + 1
      (if i ≠ 0 then [k1, k2, k1 + 1] else []) ++
        (if i ≠ st - 1 then [k1 + 1, k2, k2 + 1] else [])))

/-- Vertex count allocated by `resizeArraysSmooth`
(`vertices` gets `3 *` this many floats). -/
def smoothAllocCount (se st : ℕ) : ℕ := (se + 1) * (st + 1)

/-- Index count allocated by both `resizeArraysSmooth` and `resizeArraysFlat`:
`6 * sectorCount * (stackCount - 1)`. -/
def indexAlloc (se st : ℕ) : ℕ := 6 * se * (st - 1)

/-- Vertex count allocated by `resizeArraysFlat`:
`6 * sectorCount + 4 * sectorCount * (stackCount - 2)`. -/
def flatAllocCount (se st : ℕ) : ℕ := 6 * se + 4 * se * (st - 2)

/-! Generic list lemmas for fixed-stride arrays. -/

/-- Length of a flatMap whose blocks all have length `m`. -/
lemma length_flatMap_const {A B : Type} (l : List A) (F : A → List B) (m : ℕ)
    (hm : ∀ a, (F a).length = m) : (l.flatMap F).length = m * l.length := by
  rw [List.length_flatMap]
  rw [show (List.length ∘ F) = fun _ => m from funext hm]
  simp [List.map_const, mul_comm]

/-- Reading past a left factor of an append. -/
lemma getD_append_length {B : Type} (l l' : List B) (n : ℕ) (d : B) :
    (l ++ l').getD (l.length + n) d = l'.getD n d := by
  simp [List.getD_eq_getElem?_getD, List.getElem?_append_right]

/-- Reading inside a flatMap of constant-length blocks: position `m*v + k`
lands at offset `k` of block `v`. -/
lemma getD_flatMap_const {A B : Type} (dA : A) (dB : B) (l : List A) (F : A → List B)
    (m : ℕ) (hm : ∀ a, (F a).length = m) (v k : ℕ) (hv : v < l.length) (hk : k < m) :
    (l.flatMap F).getD (m * v + k) dB = (F (l.getD v dA)).getD k dB := by
  induction l generalizing v with
  | nil => simp at hv
  | cons a t ih =>
    rw [List.flatMap_cons]
    cases v with
    | zero =>
      rw [List.getD_append _ _ _ _ (by rw [hm a]; omega)]
      simp
    | succ v' =>
      rw [show m * (v' + 1) + k = (F a).length + (m * v' + k) by rw [hm a]; ring]
      rw [getD_append_length]
      simpa using ih v' (by simpa using hv)

/-- Reading a mapped list. -/
lemma getD_map {A B : Type} (dA : A) (dB : B) (f : A → B) (l : List A) (i : ℕ)
    (h : i < l.length) : (l.map f).getD i dB = f (l.getD i dA) := by
  simp [List.getD_eq_getElem?_getD, List.getElem?_map, List.getElem?_eq_getElem h]

/-- Reading `List.range`. -/
lemma getD_range (n i : ℕ) (h : i < n) : (List.range n).getD i 0 = i := by
  simp [List.getD_eq_getElem?_getD, List.getElem?_range h]

/-! Facts about the smooth grid. -/

lemma gridPairs_length (se st : ℕ) : (gridPairs se st).length = (se + 1) * (st + 1) := by
  unfold gridPairs
  rw [length_flatMap_const _ _ (se + 1) (fun a => by simp)]
  simp [mul_comm]

lemma gridPairs_getD (se st i j : ℕ) (hi : i < st + 1) (hj : j < se + 1) :
    (gridPairs se st).getD (i * (se + 1) + j) (0, 0) = (i, j) := by
  unfold gridPairs
  rw [show i * (se + 1) + j = (se + 1) * i + j by ring]
  rw [getD_flatMap_const 0 (0, 0) _ _ (se + 1) (fun a => by simp) i j (by simpa) hj]
  rw [getD_range _ _ hi, getD_map 0 (0, 0) _ _ j (by simpa), getD_range _ _ hj]

lemma smoothVertices_length (pi : K) (c sn : K → K) (r : K) (se st : ℕ) :
    (smoothVertices pi c sn r se st).length = 3 * ((se + 1) * (st + 1)) := by
  have h := length_flatMap_const (gridPairs se st)
      (fun p : ℕ × ℕ =>
        let v := tmpVertex pi c sn r se st p.1 p.2
        [v.x, v.y, v.z]) 3 (fun a => rfl)
  rw [gridPairs_length] at h
  exact h

lemma smoothNormals_length (pi : K) (c sn : K → K) (r : K) (se st : ℕ) :
    (smoothNormals pi c sn r se st).length = 3 * ((se + 1) * (st + 1)) := by
  have h := length_flatMap_const (gridPairs se st)
      (fun p : ℕ × ℕ =>
        let v := tmpVertex pi c sn r se st p.1 p.2
        let lengthInv : K := 1 / r
        [v.x * lengthInv, v.y * lengthInv, v.z * lengthInv]) 3 (fun a => rfl)
  rw [gridPairs_length] at h
  exact h

lemma smoothTexCoords_length (se st : ℕ) :
    (smoothTexCoords (K := K) se st).length = 2 * ((se + 1) * (st + 1)) := by
  have h := length_flatMap_const (gridPairs se st)
      (fun p : ℕ × ℕ => [(p.2 : K) / (se : K), (p.1 : K) / (st : K)]) 2 (fun a => rfl)
  rw [gridPairs_length] at h
  exact h

lemma smoothIndices_length (se st : ℕ) (hst : 2 ≤ st) :
    (smoothIndices se st).length = 6 * se * (st - 1) := by
  obtain ⟨k, rfl⟩ : ∃ k, st = k + 2 := ⟨st - 2, by omega⟩
  have hrow : ∀ i : ℕ, ((List.range se).flatMap (fun j =>
      let k1 := i * (se + 1) + j
      let k2 := k1 + se + 1
      (if i ≠ 0 then [k1, k2, k1 + 1] else []) ++
        (if i ≠ k + 2 - 1 then [k1 + 1, k2, k2 + 1] else []))).length
      = ((if i = 0 then 0 else 3) + (if i = k + 1 then 0 else 3)) * se := by
    intro i
    have hlen := length_flatMap_const (List.range se) (fun j =>
        let k1 := i * (se + 1) + j
        let k2 := k1 + se + 1
        (if i ≠ 0 then [k1, k2, k1 + 1] else []) ++
          (if i ≠ k + 2 - 1 then [k1 + 1, k2, k2 + 1] else []))
        ((if i = 0 then 0 else 3) + (if i = k + 1 then 0 else 3)) (fun a => by
          by_cases h0 : i = 0 <;> by_cases h1 : i = k + 1 <;>
            simp [h0, h1, Nat.succ_sub_one])
    simpa using hlen
  unfold smoothIndices
  rw [List.length_flatMap]
  have hmap : List.map (List.length ∘ fun i => (List.range se).flatMap (fun j =>
      let k1 := i * (se + 1) + j
      let k2 := k1 + se + 1
      (if i ≠ 0 then [k1, k2, k1 + 1] else []) ++
        (if i ≠ k + 2 - 1 then [k1 + 1, k2, k2 + 1] else []))) (List.range (k + 2))
      = List.map (fun i => ((if i = 0 then 0 else 3) + (if i = k + 1 then 0 else 3)) * se)
          (List.range (k + 2)) := by
    apply List.map_congr_left
    intro i _
    exact hrow i
  rw [hmap]
  have hfin : (List.map (fun i => ((if i = 0 then 0 else 3) + (if i = k + 1 then 0 else 3)) * se)
      (List.range (k + 2))).sum
      = ∑ i ∈ Finset.range (k + 2),
          ((if i = 0 then 0 else 3) + (if i = k + 1 then 0 else 3)) * se := rfl
  rw [hfin]
  have expand : ∀ i ∈ Finset.range (k + 2),
      ((if i = 0 then 0 else 3) + (if i = k + 1 then 0 else 3)) * se
        + ((if i = 0 then 3 * se else 0) + (if i = k + 1 then 3 * se else 0)) = 6 * se := by
    intro i hi
    by_cases h0 : i = 0 <;> by_cases h1 : i = k + 1 <;> simp [h0, h1] <;> omega
  have hsum := Finset.sum_congr rfl expand
  rw [Finset.sum_add_distrib, Finset.sum_add_distrib] at hsum
  rw [Finset.sum_ite_eq' (Finset.range (k + 2)) 0 (fun _ => 3 * se)] at hsum
  rw [Finset.sum_ite_eq' (Finset.range (k + 2)) (k + 1) (fun _ => 3 * se)] at hsum
  simp only [Finset.mem_range, Finset.sum_const, Finset.card_range, smul_eq_mul] at hsum
  have h0mem : (0 : ℕ) < k + 2 := by omega
  have h1mem : k + 1 < k + 2 := by omega
  rw [if_pos h0mem, if_pos h1mem] at hsum
  have hk1 : k + 2 - 1 = k + 1 := rfl
  nlinarith [hsum]

/-- C1: for every radius and clamped `sectorCount ≥ 3`, `stackCount ≥ 2`,
`buildVerticesSmooth` produces a `vertices` array of length
`3 * ((sectorCount+1) * (stackCount+1))`, i.e. `(sectorCount+1)*(stackCount+1)`
vertices, which is exactly the count allocated by `resizeArraysSmooth`. -/
theorem smooth_vertex_count_correct (pi : K) (c sn : K → K) (r : K) (se st : ℕ)
    (hse : 3 ≤ se) (hst : 2 ≤ st) :
    (smoothVertices pi c sn r se st).length = 3 * ((se + 1) * (st + 1)) ∧
    (smoothVertices pi c sn r se st).length / 3 = (se + 1) * (st + 1) ∧
    smoothAllocCount se st = (se + 1) * (st + 1) := by
  refine ⟨smoothVertices_length pi c sn r se st, ?_, rfl⟩
  rw [smoothVertices_length]
  omega

/-- Witness for C1 at radius 1, sectorCount 3, stackCount 2: vertex count 12. -/
theorem smooth_vertex_count_correct_witness :
    3 ≤ 3 ∧ 2 ≤ 2 ∧ (smoothVertices (0 : ℚ) id id 1 3 2).length / 3 = 12 := by
  refine ⟨by norm_num, by norm_num, ?_⟩
  have h := smooth_vertex_count_correct (0 : ℚ) id id 1 3 2 (by norm_num) (by norm_num)
  simpa using h.2.1

/-- C2: in smooth mode, for clamped `sectorCount ≥ 3`, `stackCount ≥ 2`, the
index array generated stack-by-stack and sector-by-sector (triangle
`(k1, k2, k1+1)` skipped at the first stack, triangle `(k1+1, k2, k2+1)`
skipped at the last stack) has total length `6 * sectorCount * (stackCount-1)`
and exactly fills the array allocated by `resizeArraysSmooth`. -/
theorem smooth_index_count_correct (se st : ℕ) (hse : 3 ≤ se) (hst : 2 ≤ st) :
    (smoothIndices se st).length = 6 * se * (st - 1) ∧
    (smoothIndices se st).length = indexAlloc se st := by
  have h := smoothIndices_length se st hst
  exact ⟨h, h.trans rfl⟩

/-- Witness for C2 at sectorCount 3, stackCount 2: index count 18. -/
theorem smooth_index_count_correct_witness :
    3 ≤ 3 ∧ 2 ≤ 2 ∧ (smoothIndices 3 2).length = 18 := by
  refine ⟨by norm_num, by norm_num, ?_⟩
  have h := (smooth_index_count_correct 3 2 (by norm_num) (by norm_num)).1
  simpa using h

/-! Embedding of `Sphere.computeFaceNormal` and `buildVerticesFlat`. -/

/-- Static `Sphere.computeFaceNormal`: the cross product of the edges
`(v2 - v1)` and `(v3 - v1)`, divided by its magnitude when the magnitude
exceeds `0.000001`, and otherwise the zero vector left in the
freshly-allocated `Float32Array(3)`. -/
def computeFaceNormal (sq : K → K) (x1 y1 z1 x2 y2 z2 x3 y3 z3 : K) : K × K × K :=
  let ex1 := x2 - x1
  let ey1 := y2 - y1
  let ez1 := z2 - z1
  let ex2 := x3 - x1
  let ey2 := y3 - y1
  let ez2 := z3 - z1
  let nx := ey1 * ez2 - ez1 * ey2
  let ny := ez1 * ex2 - ex1 * ez2
  let nz := ex1 * ey2 - ey1 * ex2
  let length := sq (nx * nx + ny * ny + nz * nz)
  if (1 / 1000000 : K) < length then (nx / length, ny / length, nz / length)
  else (0, 0, 0)

/-- The `(i, j)` traversal order of the quad loop
`for i in 0..stackCount-1, for j in 0..sectorCount-1` of `buildVerticesFlat`. -/
def flatCells (se st : ℕ) : List (ℕ × ℕ) :=
  (List.range st).flatMap (fun i => (List.range se).map (fun j => (i, j)))

/-- Number of vertices `buildVerticesFlat` emits for a cell in stack row `i`:
3 for the two pole rows (`i == 0`, `i == stackCount-1`), 4 for interior rows
(the `index` counter advances by this amount). -/
def flatCellVertexCount (st i : ℕ) : ℕ :=
  if i = 0 then 3 else if i = st - 1 then 3 else 4

/-- Number of index entries `buildVerticesFlat` emits per cell: one triangle
for each pole row, two triangles for interior rows. -/
def flatCellIndexCount (st i : ℕ) : ℕ :=
  if i = 0 then 3 else if i = st - 1 then 3 else 6

/-- Index entries emitted for a cell in row `i` whose first vertex has
running vertex number `base` (`index` in the source): `(index, index+1,
index+2)` for pole rows, plus `(index+2, index+1, index+3)` for interior
rows. -/
def flatCellIndices (st i base : ℕ) : List ℕ :=
  if i = 0 then [base, base + 1, base + 2]
  else if i = st - 1 then [base, base + 1, base + 2]
  else [base, base + 1, base + 2, base + 2, base + 1, base + 3]

/-- The index-writing loop of `buildVerticesFlat`, traversing the cells in
order while advancing the running `index` counter by the per-cell vertex
count. -/
def flatIndicesFrom (st : ℕ) : List (ℕ × ℕ) → ℕ → List ℕ
  | [], _ => []
  | cell :: cs, base =>
      flatCellIndices st cell.1 base ++
        flatIndicesFrom st cs (base + flatCellVertexCount st cell.1)

/-- The full `indices` content written by `buildVerticesFlat`. -/
def flatIndices (se st : ℕ) : List ℕ := flatIndicesFrom st (flatCells se st) 0

/-- Vertex floats written by `buildVerticesFlat` for cell `(i, j)`, with the
four `tmpVertices` corners `v1 = (i,j)`, `v2 = (i+1,j)`, `v3 = (i,j+1)`,
`v4 = (i+1,j+1)`: triangle `(v1, v2, v4)` at the top pole row, triangle
`(v1, v2, v3)` at the bottom pole row, quad `(v1, v2, v3, v4)` otherwise. -/
def flatCellVertices (pi : K) (c sn : K → K) (r : K) (se st i j : ℕ) : List K :=
  let v1 := tmpVertex pi c sn r se st i j
  let v2 := tmpVertex pi c sn r se st (i + 1) j
  let v3 := tmpVertex pi c sn r se st i (j + 1)
  let v4 := tmpVertex pi c sn r se st (i + 1) (j + 1)
  if i = 0 then [v1.x, v1.y, v1.z, v2.x, v2.y, v2.z, v4.x, v4.y, v4.z]
  else if i = st - 1 then [v1.x, v1.y, v1.z, v2.x, v2.y, v2.z, v3.x, v3.y, v3.z]
  else [v1.x, v1.y, v1.z, v2.x, v2.y, v2.z, v3.x, v3.y, v3.z, v4.x, v4.y, v4.z]

/-- Normal floats written by `buildVerticesFlat` for cell `(i, j)`: the face
normal replicated for the three vertices `addNormal` is called on.  In the
interior branch the source calls `addNormal` only at offsets `ii`, `ii+3`,
`ii+6` but advances `ii` by 12, so the fourth vertex keeps the zeros of the
freshly allocated `Float32Array`. -/
def flatCellNormals (pi : K) (c sn sq : K → K) (r : K) (se st i j : ℕ) : List K :=
  let v1 := tmpVertex pi c sn r se st i j
  let v2 := tmpVertex pi c sn r se st (i + 1) j
  let v3 := tmpVertex pi c sn r se st i (j + 1)
  let v4 := tmpVertex pi c sn r se st (i + 1) (j + 1)
  if i = 0 then
    let n := computeFaceNormal sq v1.x v1.y v1.z v2.x v2.y v2.z v4.x v4.y v4.z
    [n.1, n.2.1, n.2.2, n.1, n.2.1, n.2.2, n.1, n.2.1, n.2.2]
  else if i = st - 1 then
    let n := computeFaceNormal sq v1.x v1.y v1.z v2.x v2.y v2.z v3.x v3.y v3.z
    [n.1, n.2.1, n.2.2, n.1, n.2.1, n.2.2, n.1, n.2.1, n.2.2]
  else
    let n := computeFaceNormal sq v1.x v1.y v1.z v2.x v2.y v2.z v3.x v3.y v3.z
    [n.1, n.2.1, n.2.2, n.1, n.2.1, n.2.2, n.1, n.2.1, n.2.2, 0, 0, 0]

/-- Texture-coordinate floats written by `buildVerticesFlat` for cell
`(i, j)`. -/
def flatCellTexCoords (pi : K) (c sn : K → K) (r : K) (se st i j : ℕ) : List K :=
  let v1 := tmpVertex pi c sn r se st i j
  let v2 := tmpVertex pi c sn r se st (i + 1) j
  let v3 := tmpVertex pi c sn r se st i (j + 1)
  let v4 := tmpVertex pi c sn r se st (i + 1) (j + 1)
  if i = 0 then [v1.s, v1.t, v2.s, v2.t, v4.s, v4.t]
  else if i = st - 1 then [v1.s, v1.t, v2.s, v2.t, v3.s, v3.t]
  else [v1.s, v1.t, v2.s, v2.t, v3.s, v3.t, v4.s, v4.t]

/-- The full `vertices` content written by `buildVerticesFlat`. -/
def flatVertices (pi : K) (c sn : K → K) (r : K) (se st : ℕ) : List K :=
  (flatCells se st).flatMap (fun p => flatCellVertices pi c sn r se st p.1 p.2)

/-- The full `normals` content written by `buildVerticesFlat`. -/
def flatNormals (pi : K) (c sn sq : K → K) (r : K) (se st : ℕ) : List K :=
  (flatCells se st).flatMap (fun p => flatCellNormals pi c sn sq r se st p.1 p.2)

/-- The full `texCoords` content written by `buildVerticesFlat`. -/
def flatTexCoords (pi : K) (c sn : K → K) (r : K) (se st : ℕ) : List K :=
  (flatCells se st).flatMap (fun p => flatCellTexCoords pi c sn r se st p.1 p.2)

/-- The `interleavedVertices` array of `buildInterleavedVertices`: for each
vertex `v` below `getVertexCount() = vertices.length / 3`, the record
`(vertices[3v..3v+2], normals[3v..3v+2], texCoords[2v..2v+1])`. -/
def buildInterleavedVertices (V N T : List K) : List K :=
  (List.range (V.length / 3)).flatMap (fun v =>
    [V.getD (3 * v) 0, V.getD (3 * v + 1) 0, V.getD (3 * v + 2) 0,
     N.getD (3 * v) 0, N.getD (3 * v + 1) 0, N.getD (3 * v + 2) 0,
     T.getD (2 * v) 0, T.getD (2 * v + 1) 0])

/-! Counting lemmas for the flat builder. -/

lemma sum_flatMap {A : Type} (l : List A) (F : A → List ℕ) :
    (l.flatMap F).sum = (l.map (fun a => (F a).sum)).sum := by
  induction l with
  | nil => rfl
  | cons a t ih => simp [List.flatMap_cons, ih]

lemma sum_range_two_poles (k a b : ℕ) :
    ∑ i ∈ Finset.range (k + 2), (if i = 0 then a else if i = k + 1 then a else b)
      = 2 * a + k * b := by
  rw [Finset.sum_range_succ, Finset.sum_range_succ']
  have h1 : ∀ x ∈ Finset.range k,
      (if x + 1 = 0 then a else if x + 1 = k + 1 then a else b) = b := by
    intro x hx
    rw [Finset.mem_range] at hx
    have hx0 : x + 1 ≠ 0 := by omega
    have hxk : x + 1 ≠ k + 1 := by omega
    simp [hx0, hxk]
  rw [Finset.sum_congr rfl h1]
  simp only [Finset.sum_const, Finset.card_range, smul_eq_mul]
  split_ifs <;> omega

lemma flatCells_map_sum (se st : ℕ) (f : ℕ → ℕ) :
    ((flatCells se st).map (fun p => f p.1)).sum = ∑ i ∈ Finset.range st, se * f i := by
  unfold flatCells
  rw [List.map_flatMap, sum_flatMap]
  have hin : ∀ i : ℕ,
      (((List.range se).map (fun j => (i, j))).map (fun p : ℕ × ℕ => f p.1)).sum
        = se * f i := by
    intro i
    have hc : ((List.range se).map (fun j => (i, j))).map (fun p : ℕ × ℕ => f p.1)
        = (List.range se).map (fun _ => f i) := by
      rw [List.map_map]
      rfl
    rw [hc]
    simp [List.map_const, mul_comm]
  have hmap : ((List.range st).map (fun i =>
        (((List.range se).map (fun j => (i, j))).map (fun p : ℕ × ℕ => f p.1)).sum))
      = (List.range st).map (fun i => se * f i) := by
    apply List.map_congr_left
    intro i _
    exact hin i
  rw [hmap]
  rfl

lemma flatCellIndices_length (st i b : ℕ) :
    (flatCellIndices st i b).length = flatCellIndexCount st i := by
  unfold flatCellIndices flatCellIndexCount
  split_ifs <;> rfl

lemma flatIndicesFrom_length (st : ℕ) (cs : List (ℕ × ℕ)) (b : ℕ) :
    (flatIndicesFrom st cs b).length = (cs.map (fun p => flatCellIndexCount st p.1)).sum := by
  induction cs generalizing b with
  | nil => rfl
  | cons cell cs ih =>
    rw [flatIndicesFrom, List.length_append, flatCellIndices_length, ih]
    simp

lemma flatIndices_length (se st : ℕ) (hst : 2 ≤ st) :
    (flatIndices se st).length = 6 * se * (st - 1) := by
  unfold flatIndices
  rw [flatIndicesFrom_length, flatCells_map_sum]
  obtain ⟨k, rfl⟩ : ∃ k, st = k + 2 := ⟨st - 2, by omega⟩
  have hw : ∀ i ∈ Finset.range (k + 2), se * flatCellIndexCount (k + 2) i
      = se * (if i = 0 then 3 else if i = k + 1 then 3 else 6) := by
    intro i _
    unfold flatCellIndexCount
    norm_num
  rw [Finset.sum_congr rfl hw, ← Finset.mul_sum, sum_range_two_poles]
  have h1 : k + 2 - 1 = k + 1 := rfl
  rw [h1]
  ring

lemma flatCellIndices_lt (st i b : ℕ) :
    ∀ x ∈ flatCellIndices st i b, x < b + flatCellVertexCount st i := by
  unfold flatCellIndices flatCellVertexCount
  split_ifs <;> intro x hx <;> simp at hx <;> omega

lemma flatIndicesFrom_lt (st : ℕ) (cs : List (ℕ × ℕ)) (b : ℕ) :
    ∀ x ∈ flatIndicesFrom st cs b,
      x < b + (cs.map (fun p => flatCellVertexCount st p.1)).sum := by
  induction cs generalizing b with
  | nil => intro x hx; simp [flatIndicesFrom] at hx
  | cons cell cs ih =>
    intro x hx
    rw [flatIndicesFrom, List.mem_append] at hx
    rcases hx with h | h
    · have := flatCellIndices_lt st cell.1 b x h
      simp only [List.map_cons, List.sum_cons]
      omega
    · have := ih (b + flatCellVertexCount st cell.1) x h
      simp only [List.map_cons, List.sum_cons] at this ⊢
      omega

lemma smoothIndices_lt (se st : ℕ) (x : ℕ) (hx : x ∈ smoothIndices se st) :
    x < (se + 1) * (st + 1) := by
  unfold smoothIndices at hx
  simp only [List.mem_flatMap, List.mem_range, List.mem_append] at hx
  obtain ⟨i, hi, j, hj, hmem⟩ := hx
  have hkey : x ≤ i * (se + 1) + j + se + 2 := by
    rcases hmem with h | h <;> split_ifs at h <;> simp at h <;> omega
  have hmul : (i + 1) * (se + 1) ≤ st * (se + 1) := Nat.mul_le_mul_right _ hi
  nlinarith [hkey, hmul, hj]

lemma flatCellVertices_length (pi : K) (c sn : K → K) (r : K) (se st i j : ℕ) :
    (flatCellVertices pi c sn r se st i j).length = 3 * flatCellVertexCount st i := by
  unfold flatCellVertices flatCellVertexCount
  split_ifs <;> rfl

lemma flatCellNormals_length (pi : K) (c sn sq : K → K) (r : K) (se st i j : ℕ) :
    (flatCellNormals pi c sn sq r se st i j).length = 3 * flatCellVertexCount st i := by
  unfold flatCellNormals flatCellVertexCount
  split_ifs <;> rfl

lemma flatCellTexCoords_length (pi : K) (c sn : K → K) (r : K) (se st i j : ℕ) :
    (flatCellTexCoords pi c sn r se st i j).length = 2 * flatCellVertexCount st i := by
  unfold flatCellTexCoords flatCellVertexCount
  split_ifs <;> rfl

lemma sum_map_mul {A : Type} (c : ℕ) (l : List A) (f : A → ℕ) :
    (l.map (fun a => c * f a)).sum = c * (l.map f).sum := by
  induction l with
  | nil => simp
  | cons a t ih => simp [ih, Nat.mul_add]

lemma flatVertices_length (pi : K) (c sn : K → K) (r : K) (se st : ℕ) :
    (flatVertices pi c sn r se st).length
      = 3 * ((flatCells se st).map (fun p => flatCellVertexCount st p.1)).sum := by
  unfold flatVertices
  rw [List.length_flatMap]
  have hmap : (flatCells se st).map
        (List.length ∘ fun p : ℕ × ℕ => flatCellVertices pi c sn r se st p.1 p.2)
      = (flatCells se st).map (fun p : ℕ × ℕ => 3 * flatCellVertexCount st p.1) := by
    apply List.map_congr_left
    intro p _
    exact flatCellVertices_length pi c sn r se st p.1 p.2
  rw [hmap, sum_map_mul]

lemma flatNormals_length (pi : K) (c sn sq : K → K) (r : K) (se st : ℕ) :
    (flatNormals pi c sn sq r se st).length
      = 3 * ((flatCells se st).map (fun p => flatCellVertexCount st p.1)).sum := by
  unfold flatNormals
  rw [List.length_flatMap]
  have hmap : (flatCells se st).map
        (List.length ∘ fun p : ℕ × ℕ => flatCellNormals pi c sn sq r se st p.1 p.2)
      = (flatCells se st).map (fun p : ℕ × ℕ => 3 * flatCellVertexCount st p.1) := by
    apply List.map_congr_left
    intro p _
    exact flatCellNormals_length pi c sn sq r se st p.1 p.2
  rw [hmap, sum_map_mul]

lemma flatTexCoords_length (pi : K) (c sn : K → K) (r : K) (se st : ℕ) :
    (flatTexCoords pi c sn r se st).length
      = 2 * ((flatCells se st).map (fun p => flatCellVertexCount st p.1)).sum := by
  unfold flatTexCoords
  rw [List.length_flatMap]
  have hmap : (flatCells se st).map
        (List.length ∘ fun p : ℕ × ℕ => flatCellTexCoords pi c sn r se st p.1 p.2)
      = (flatCells se st).map (fun p : ℕ × ℕ => 2 * flatCellVertexCount st p.1) := by
    apply List.map_congr_left
    intro p _
    exact flatCellTexCoords_length pi c sn r se st p.1 p.2
  rw [hmap, sum_map_mul]

lemma flatTotalVCount_eq (se st : ℕ) (hst : 2 ≤ st) :
    ((flatCells se st).map (fun p => flatCellVertexCount st p.1)).sum
      = 6 * se + 4 * se * (st - 2) := by
  rw [flatCells_map_sum]
  obtain ⟨k, rfl⟩ : ∃ k, st = k + 2 := ⟨st - 2, by omega⟩
  have hw : ∀ i ∈ Finset.range (k + 2), se * flatCellVertexCount (k + 2) i
      = se * (if i = 0 then 3 else if i = k + 1 then 3 else 4) := by
    intro i _
    unfold flatCellVertexCount
    norm_num
  rw [Finset.sum_congr rfl hw, ← Finset.mul_sum, sum_range_two_poles]
  have h2 : k + 2 - 2 = k := rfl
  rw [h2]
  ring

/-- C3: for clamped `sectorCount ≥ 3`, `stackCount ≥ 2`, the flat build's
index count exactly fills the `resizeArraysFlat` allocation and the triangle
count (index count divided by 3) equals
`sectorCount + sectorCount + 2*sectorCount*(stackCount-2)`. -/
theorem flat_triangle_count_correct (se st : ℕ) (hse : 3 ≤ se) (hst : 2 ≤ st) :
    (flatIndices se st).length = indexAlloc se st ∧
    (flatIndices se st).length / 3 = se + se + 2 * se * (st - 2) := by
  have h := flatIndices_length se st hst
  refine ⟨h.trans rfl, ?_⟩
  rw [h]
  obtain ⟨k, rfl⟩ : ∃ k, st = k + 2 := ⟨st - 2, by omega⟩
  have h1 : k + 2 - 1 = k + 1 := rfl
  have h2 : k + 2 - 2 = k := rfl
  rw [h1, h2, show 6 * se * (k + 1) = 3 * (se + se + 2 * se * k) by ring]
  exact Nat.mul_div_cancel_left _ (by norm_num)

/-- Witness for C3 at sectorCount 3, stackCount 2: 6 triangles, 18 indices. -/
theorem flat_triangle_count_correct_witness :
    3 ≤ 3 ∧ 2 ≤ 2 ∧ (flatIndices 3 2).length / 3 = 6 := by
  refine ⟨by norm_num, by norm_num, ?_⟩
  have h := (flat_triangle_count_correct 3 2 (by norm_num) (by norm_num)).2
  simpa using h

/-- C4 counterexample: for sectorCount 4, stackCount 3 the flat build has
16 triangles, not 8: stackCount 3 leaves one interior row contributing
`2 * 4` extra triangles. -/
theorem flat_4_3_not_eight :
    (flatIndices 4 3).length / 3 = 16 ∧ ((flatIndices 4 3).length / 3 = 8 → False) := by
  decide

/-- C4 amended: for sectorCount 4, stackCount 3 the flat build has exactly
16 triangles: 4 top pole triangles, 4 bottom pole triangles, and 2*4
triangles from the single interior row. -/
theorem flat_4_3_triangle_count :
    (flatIndices 4 3).length / 3 = 4 + 4 + 2 * 4 * (3 - 2) := by
  decide

/-- C5: for clamped `sectorCount ≥ 3`, `stackCount ≥ 2`, every element of
the index array is strictly below the vertex count `vertices.length / 3`,
in smooth mode and in flat mode. -/
theorem indices_below_vertex_count (pi : K) (c sn : K → K) (r : K) (se st : ℕ)
    (hse : 3 ≤ se) (hst : 2 ≤ st) :
    (∀ x ∈ smoothIndices se st, x < (smoothVertices pi c sn r se st).length / 3) ∧
    (∀ x ∈ flatIndices se st, x < (flatVertices pi c sn r se st).length / 3) := by
  constructor
  · intro x hx
    rw [smoothVertices_length, Nat.mul_div_cancel_left _ (by norm_num : 0 < 3)]
    exact smoothIndices_lt se st x hx
  · intro x hx
    rw [flatVertices_length, Nat.mul_div_cancel_left _ (by norm_num : 0 < 3)]
    have h := flatIndicesFrom_lt st (flatCells se st) 0 x hx
    simpa using h

/-- Witness for C5 at sectorCount 3, stackCount 2 over `ℚ`. -/
theorem indices_below_vertex_count_witness :
    3 ≤ 3 ∧ 2 ≤ 2 ∧
    (∀ x ∈ smoothIndices 3 2, x < (smoothVertices (0 : ℚ) id id 1 3 2).length / 3) := by
  refine ⟨by norm_num, by norm_num, ?_⟩
  exact (indices_below_vertex_count (0 : ℚ) id id 1 3 2 (by norm_num) (by norm_num)).1

/-! Element access into the smooth arrays. -/

lemma smoothVertices_getD (pi : K) (c sn : K → K) (r : K) (se st i j k : ℕ)
    (hi : i < st + 1) (hj : j < se + 1) (hk : k < 3) :
    (smoothVertices pi c sn r se st).getD (3 * (i * (se + 1) + j) + k) 0
      = [(tmpVertex pi c sn r se st i j).x, (tmpVertex pi c sn r se st i j).y,
         (tmpVertex pi c sn r se st i j).z].getD k 0 := by
  have hv : i * (se + 1) + j < (gridPairs se st).length := by
    rw [gridPairs_length]
    have : (i + 1) * (se + 1) ≤ (st + 1) * (se + 1) := Nat.mul_le_mul_right _ hi
    nlinarith [hj]
  have h := getD_flatMap_const (0, 0) (0 : K) (gridPairs se st)
      (fun p : ℕ × ℕ =>
        let v := tmpVertex pi c sn r se st p.1 p.2
        [v.x, v.y, v.z]) 3 (fun a => rfl) (i * (se + 1) + j) k hv hk
  rw [gridPairs_getD se st i j hi hj] at h
  exact h

lemma smoothNormals_getD (pi : K) (c sn : K → K) (r : K) (se st i j k : ℕ)
    (hi : i < st + 1) (hj : j < se + 1) (hk : k < 3) :
    (smoothNormals pi c sn r se st).getD (3 * (i * (se + 1) + j) + k) 0
      = [(tmpVertex pi c sn r se st i j).x * (1 / r),
         (tmpVertex pi c sn r se st i j).y * (1 / r),
         (tmpVertex pi c sn r se st i j).z * (1 / r)].getD k 0 := by
  have hv : i * (se + 1) + j < (gridPairs se st).length := by
    rw [gridPairs_length]
    have : (i + 1) * (se + 1) ≤ (st + 1) * (se + 1) := Nat.mul_le_mul_right _ hi
    nlinarith [hj]
  have h := getD_flatMap_const (0, 0) (0 : K) (gridPairs se st)
      (fun p : ℕ × ℕ =>
        let v := tmpVertex pi c sn r se st p.1 p.2
        let lengthInv : K := 1 / r
        [v.x * lengthInv, v.y * lengthInv, v.z * lengthInv]) 3 (fun a => rfl)
      (i * (se + 1) + j) k hv hk
  rw [gridPairs_getD se st i j hi hj] at h
  exact h

lemma tmpVertex_norm_sq (r : ℝ) (hr : r ≠ 0) (se st i j : ℕ) :
    ((tmpVertex Real.pi Real.cos Real.sin r se st i j).x * (1 / r)) ^ 2
      + ((tmpVertex Real.pi Real.cos Real.sin r se st i j).y * (1 / r)) ^ 2
      + ((tmpVertex Real.pi Real.cos Real.sin r se st i j).z * (1 / r)) ^ 2 = 1 := by
  unfold tmpVertex
  simp only
  set u := Real.pi / 2 - (i : ℝ) * (Real.pi / (st : ℝ)) with hu
  set w := (j : ℝ) * (2 * Real.pi / (se : ℝ)) with hw
  have h1 := Real.sin_sq_add_cos_sq u
  have h2 := Real.sin_sq_add_cos_sq w
  field_simp
  linear_combination (r ^ 2 * (Real.cos u) ^ 2) * h2 + r ^ 2 * h1

/-- C6: in smooth mode with radius `r > 0`, for every vertex index `v`, the
stored normal equals the stored position scaled by `1/r` componentwise, the
stored normal has squared length exactly 1, and hence its length is within
`1e-5` of 1. -/
theorem smooth_normals_are_scaled_positions (r : ℝ) (hr : 0 < r) (se st v : ℕ)
    (hse : 3 ≤ se) (hst : 2 ≤ st) (hv : v < (se + 1) * (st + 1)) :
    ((smoothNormals Real.pi Real.cos Real.sin r se st).getD (3 * v) 0
        = (smoothVertices Real.pi Real.cos Real.sin r se st).getD (3 * v) 0 * (1 / r) ∧
      (smoothNormals Real.pi Real.cos Real.sin r se st).getD (3 * v + 1) 0
        = (smoothVertices Real.pi Real.cos Real.sin r se st).getD (3 * v + 1) 0 * (1 / r) ∧
      (smoothNormals Real.pi Real.cos Real.sin r se st).getD (3 * v + 2) 0
        = (smoothVertices Real.pi Real.cos Real.sin r se st).getD (3 * v + 2) 0 * (1 / r)) ∧
    ((smoothNormals Real.pi Real.cos Real.sin r se st).getD (3 * v) 0) ^ 2
      + ((smoothNormals Real.pi Real.cos Real.sin r se st).getD (3 * v + 1) 0) ^ 2
      + ((smoothNormals Real.pi Real.cos Real.sin r se st).getD (3 * v + 2) 0) ^ 2 = 1 ∧
    |Real.sqrt (((smoothNormals Real.pi Real.cos Real.sin r se st).getD (3 * v) 0) ^ 2
      + ((smoothNormals Real.pi Real.cos Real.sin r se st).getD (3 * v + 1) 0) ^ 2
      + ((smoothNormals Real.pi Real.cos Real.sin r se st).getD (3 * v + 2) 0) ^ 2) - 1|
      ≤ 1e-5 := by
  obtain ⟨i, j, hi, hj, rfl⟩ :
      ∃ i j, i < st + 1 ∧ j < se + 1 ∧ i * (se + 1) + j = v := by
    refine ⟨v / (se + 1), v % (se + 1), ?_, ?_, ?_⟩
    · exact Nat.div_lt_of_lt_mul hv
    · exact Nat.mod_lt _ (by omega)
    · rw [mul_comm]
      exact Nat.div_add_mod v (se + 1)
  have hN0 := smoothNormals_getD Real.pi Real.cos Real.sin r se st i j 0 hi hj (by norm_num)
  have hN1 := smoothNormals_getD Real.pi Real.cos Real.sin r se st i j 1 hi hj (by norm_num)
  have hN2 := smoothNormals_getD Real.pi Real.cos Real.sin r se st i j 2 hi hj (by norm_num)
  have hV0 := smoothVertices_getD Real.pi Real.cos Real.sin r se st i j 0 hi hj (by norm_num)
  have hV1 := smoothVertices_getD Real.pi Real.cos Real.sin r se st i j 1 hi hj (by norm_num)
  have hV2 := smoothVertices_getD Real.pi Real.cos Real.sin r se st i j 2 hi hj (by norm_num)
  simp only [Nat.add_zero] at hN0 hV0
  have hsum : ((smoothNormals Real.pi Real.cos Real.sin r se st).getD
        (3 * (i * (se + 1) + j)) 0) ^ 2
      + ((smoothNormals Real.pi Real.cos Real.sin r se st).getD
        (3 * (i * (se + 1) + j) + 1) 0) ^ 2
      + ((smoothNormals Real.pi Real.cos Real.sin r se st).getD
        (3 * (i * (se + 1) + j) + 2) 0) ^ 2 = 1 := by
    rw [hN0, hN1, hN2]
    exact tmpVertex_norm_sq r (ne_of_gt hr) se st i j
  refine ⟨⟨?_, ?_, ?_⟩, hsum, ?_⟩
  · rw [hN0, hV0]
    rfl
  · rw [hN1, hV1]
    rfl
  · rw [hN2, hV2]
    rfl
  · rw [hsum]
    norm_num [Real.sqrt_one]

/-- Witness for C6 at radius 1, sectorCount 3, stackCount 2, vertex 0. -/
theorem smooth_normals_are_scaled_positions_witness :
    (0 : ℝ) < 1 ∧ 3 ≤ 3 ∧ 2 ≤ 2 ∧ (0 : ℕ) < (3 + 1) * (2 + 1) ∧
    ((smoothNormals Real.pi Real.cos Real.sin 1 3 2).getD 0 0) ^ 2
      + ((smoothNormals Real.pi Real.cos Real.sin 1 3 2).getD 1 0) ^ 2
      + ((smoothNormals Real.pi Real.cos Real.sin 1 3 2).getD 2 0) ^ 2 = 1 := by
  refine ⟨by norm_num, by norm_num, by norm_num, by norm_num, ?_⟩
  have h := (smooth_normals_are_scaled_positions 1 (by norm_num) 3 2 0
      (by norm_num) (by norm_num) (by norm_num)).2.1
  simpa using h

/-- The per-vertex round-trip property of the interleaved array `I` against
source arrays `V`, `N`, `T`: record `v` of `I` (stride 8) carries exactly
the `v`-th position, normal and texture-coordinate entries. -/
def interleavedMatches (V N T I : List K) (v : ℕ) : Prop :=
  I.getD (8 * v) 0 = V.getD (3 * v) 0 ∧
  I.getD (8 * v + 1) 0 = V.getD (3 * v + 1) 0 ∧
  I.getD (8 * v + 2) 0 = V.getD (3 * v + 2) 0 ∧
  I.getD (8 * v + 3) 0 = N.getD (3 * v) 0 ∧
  I.getD (8 * v + 4) 0 = N.getD (3 * v + 1) 0 ∧
  I.getD (8 * v + 5) 0 = N.getD (3 * v + 2) 0 ∧
  I.getD (8 * v + 6) 0 = T.getD (2 * v) 0 ∧
  I.getD (8 * v + 7) 0 = T.getD (2 * v + 1) 0

lemma buildInterleavedVertices_getD (V N T : List K) (v : ℕ) (hv : v < V.length / 3) :
    interleavedMatches V N T (buildInterleavedVertices V N T) v := by
  have key : ∀ k : ℕ, k < 8 → (buildInterleavedVertices V N T).getD (8 * v + k) 0
      = [V.getD (3 * v) 0, V.getD (3 * v + 1) 0, V.getD (3 * v + 2) 0,
         N.getD (3 * v) 0, N.getD (3 * v + 1) 0, N.getD (3 * v + 2) 0,
         T.getD (2 * v) 0, T.getD (2 * v + 1) 0].getD k 0 := by
    intro k hk
    have h := getD_flatMap_const 0 (0 : K) (List.range (V.length / 3))
        (fun w : ℕ =>
          [V.getD (3 * w) 0, V.getD (3 * w + 1) 0, V.getD (3 * w + 2) 0,
           N.getD (3 * w) 0, N.getD (3 * w + 1) 0, N.getD (3 * w + 2) 0,
           T.getD (2 * w) 0, T.getD (2 * w + 1) 0]) 8 (fun a => rfl) v k (by simpa) hk
    rw [getD_range _ _ hv] at h
    exact h
  exact ⟨key 0 (by norm_num), key 1 (by norm_num), key 2 (by norm_num),
    key 3 (by norm_num), key 4 (by norm_num), key 5 (by norm_num),
    key 6 (by norm_num), key 7 (by norm_num)⟩

/-- C7: for every mesh produced by either build mode and every vertex index
`v` below the vertex count (`vertices.length / 3`), the interleaved record
at offset `8v` reproduces positions, normals and texture coordinates
exactly. -/
theorem interleaved_roundtrip (pi : K) (c sn sq : K → K) (r : K) (se st v : ℕ)
    (hse : 3 ≤ se) (hst : 2 ≤ st) :
    (v < (smoothVertices pi c sn r se st).length / 3 →
      interleavedMatches (smoothVertices pi c sn r se st) (smoothNormals pi c sn r se st)
        (smoothTexCoords se st)
        (buildInterleavedVertices (smoothVertices pi c sn r se st)
          (smoothNormals pi c sn r se st) (smoothTexCoords se st)) v) ∧
    (v < (flatVertices pi c sn r se st).length / 3 →
      interleavedMatches (flatVertices pi c sn r se st) (flatNormals pi c sn sq r se st)
        (flatTexCoords pi c sn r se st)
        (buildInterleavedVertices (flatVertices pi c sn r se st)
          (flatNormals pi c sn sq r se st) (flatTexCoords pi c sn r se st)) v) := by
  constructor
  · intro hv
    exact buildInterleavedVertices_getD _ _ _ v hv
  · intro hv
    exact buildInterleavedVertices_getD _ _ _ v hv

/-- Witness for C7 at `K := ℚ`, radius 1, sectorCount 3, stackCount 2,
vertex 0, smooth mode. -/
theorem interleaved_roundtrip_witness :
    3 ≤ 3 ∧ 2 ≤ 2 ∧
    0 < (smoothVertices (0 : ℚ) id id 1 3 2).length / 3 ∧
    interleavedMatches (smoothVertices (0 : ℚ) id id 1 3 2)
      (smoothNormals (0 : ℚ) id id 1 3 2) (smoothTexCoords 3 2)
      (buildInterleavedVertices (smoothVertices (0 : ℚ) id id 1 3 2)
        (smoothNormals (0 : ℚ) id id 1 3 2) (smoothTexCoords 3 2)) 0 := by
  have hlen : (smoothVertices (0 : ℚ) id id 1 3 2).length / 3 = 12 := by
    rw [smoothVertices_length]
  refine ⟨by norm_num, by norm_num, by rw [hlen]; norm_num, ?_⟩
  exact (interleaved_roundtrip (0 : ℚ) id id id 1 3 2 0 (by norm_num) (by norm_num)).1
    (by rw [hlen]; norm_num)

/-- C8: `computeFaceNormal` returns the zero vector whenever the magnitude
of the edge cross product does not exceed the `0.000001` threshold (the
guarded division is never performed), and otherwise returns the cross
product of the edges `(v2-v1)` and `(v3-v1)` divided by its magnitude,
which is then strictly positive. -/
theorem computeFaceNormal_spec (x1 y1 z1 x2 y2 z2 x3 y3 z3 : ℝ) :
    (Real.sqrt (((y2 - y1) * (z3 - z1) - (z2 - z1) * (y3 - y1)) *
          ((y2 - y1) * (z3 - z1) - (z2 - z1) * (y3 - y1)) +
        ((z2 - z1) * (x3 - x1) - (x2 - x1) * (z3 - z1)) *
          ((z2 - z1) * (x3 - x1) - (x2 - x1) * (z3 - z1)) +
        ((x2 - x1) * (y3 - y1) - (y2 - y1) * (x3 - x1)) *
          ((x2 - x1) * (y3 - y1) - (y2 - y1) * (x3 - x1))) ≤ 1 / 1000000 →
      computeFaceNormal Real.sqrt x1 y1 z1 x2 y2 z2 x3 y3 z3 = (0, 0, 0)) ∧
    (1 / 1000000 < Real.sqrt (((y2 - y1) * (z3 - z1) - (z2 - z1) * (y3 - y1)) *
          ((y2 - y1) * (z3 - z1) - (z2 - z1) * (y3 - y1)) +
        ((z2 - z1) * (x3 - x1) - (x2 - x1) * (z3 - z1)) *
          ((z2 - z1) * (x3 - x1) - (x2 - x1) * (z3 - z1)) +
        ((x2 - x1) * (y3 - y1) - (y2 - y1) * (x3 - x1)) *
          ((x2 - x1) * (y3 - y1) - (y2 - y1) * (x3 - x1))) →
      0 < Real.sqrt (((y2 - y1) * (z3 - z1) - (z2 - z1) * (y3 - y1)) *
          ((y2 - y1) * (z3 - z1) - (z2 - z1) * (y3 - y1)) +
        ((z2 - z1) * (x3 - x1) - (x2 - x1) * (z3 - z1)) *
          ((z2 - z1) * (x3 - x1) - (x2 - x1) * (z3 - z1)) +
        ((x2 - x1) * (y3 - y1) - (y2 - y1) * (x3 - x1)) *
          ((x2 - x1) * (y3 - y1) - (y2 - y1) * (x3 - x1))) ∧
      computeFaceNormal Real.sqrt x1 y1 z1 x2 y2 z2 x3 y3 z3 =
        (((y2 - y1) * (z3 - z1) - (z2 - z1) * (y3 - y1)) /
           Real.sqrt (((y2 - y1) * (z3 - z1) - (z2 - z1) * (y3 - y1)) *
              ((y2 - y1) * (z3 - z1) - (z2 - z1) * (y3 - y1)) +
            ((z2 - z1) * (x3 - x1) - (x2 - x1) * (z3 - z1)) *
              ((z2 - z1) * (x3 - x1) - (x2 - x1) * (z3 - z1)) +
            ((x2 - x1) * (y3 - y1) - (y2 - y1) * (x3 - x1)) *
              ((x2 - x1) * (y3 - y1) - (y2 - y1) * (x3 - x1))),
         ((z2 - z1) * (x3 - x1) - (x2 - x1) * (z3 - z1)) /
           Real.sqrt (((y2 - y1) * (z3 - z1) - (z2 - z1) * (y3 - y1)) *
              ((y2 - y1) * (z3 - z1) - (z2 - z1) * (y3 - y1)) +
            ((z2 - z1) * (x3 - x1) - (x2 - x1) * (z3 - z1)) *
              ((z2 - z1) * (x3 - x1) - (x2 - x1) * (z3 - z1)) +
            ((x2 - x1) * (y3 - y1) - (y2 - y1) * (x3 - x1)) *
              ((x2 - x1) * (y3 - y1) - (y2 - y1) * (x3 - x1))),
         ((x2 - x1) * (y3 - y1) - (y2 - y1) * (x3 - x1)) /
           Real.sqrt (((y2 - y1) * (z3 - z1) - (z2 - z1) * (y3 - y1)) *
              ((y2 - y1) * (z3 - z1) - (z2 - z1) * (y3 - y1)) +
            ((z2 - z1) * (x3 - x1) - (x2 - x1) * (z3 - z1)) *
              ((z2 - z1) * (x3 - x1) - (x2 - x1) * (z3 - z1)) +
            ((x2 - x1) * (y3 - y1) - (y2 - y1) * (x3 - x1)) *
              ((x2 - x1) * (y3 - y1) - (y2 - y1) * (x3 - x1))))) := by
  constructor
  · intro hle
    unfold computeFaceNormal
    simp only
    rw [if_neg (not_lt.mpr hle)]
  · intro hlt
    refine ⟨lt_trans (by norm_num) hlt, ?_⟩
    unfold computeFaceNormal
    simp only
    rw [if_pos hlt]

/-- Witness for C8: a fully collapsed triangle (all corners at the origin)
has cross-product magnitude `Real.sqrt 0 ≤ 0.000001` and yields the zero
vector. -/
theorem computeFaceNormal_spec_witness :
    Real.sqrt ((((0:ℝ) - 0) * (0 - 0) - (0 - 0) * (0 - 0)) *
          ((0 - 0) * (0 - 0) - (0 - 0) * (0 - 0)) +
        ((0 - 0) * (0 - 0) - (0 - 0) * (0 - 0)) *
          ((0 - 0) * (0 - 0) - (0 - 0) * (0 - 0)) +
        ((0 - 0) * (0 - 0) - (0 - 0) * (0 - 0)) *
          ((0 - 0) * (0 - 0) - (0 - 0) * (0 - 0))) ≤ 1 / 1000000 ∧
    computeFaceNormal Real.sqrt (0:ℝ) 0 0 0 0 0 0 0 0 = (0, 0, 0) := by
  constructor
  · norm_num
  · exact (computeFaceNormal_spec 0 0 0 0 0 0 0 0 0).1 (by norm_num)

/-! Embedding of the stateful `Sphere` object and its setters. -/

/-- The fields of a `Sphere` instance: shape parameters and the five CPU-side
arrays.  The GL handles (`gl`, `vboVertex`, `vboIndex`) are external
resources not modelled here; `stride` is the constant 32. -/
structure Sphere (K : Type) where
  radius : K
  sectorCount : ℤ
  stackCount : ℤ
  smooth : Bool
  vertices : List K
  normals : List K
  texCoords : List K
  indices : List ℕ
  interleavedVertices : List K

/-- The body shared by `buildVerticesSmooth` and `buildVerticesFlat` viewed
as a state transformer: rebuild all five arrays from the current `radius`,
`sectorCount`, `stackCount` according to the current `smooth` flag.  The
final `buildVbos` call only uploads to the GL context and does not change
the state. -/
def Sphere.build (pi : K) (c sn sq : K → K) (sp : Sphere K) : Sphere K :=
  let sen := sp.sectorCount.toNat
  let stn := sp.stackCount.toNat
  if sp.smooth then
    let V := smoothVertices pi c sn sp.radius sen stn
    let N := smoothNormals pi c sn sp.radius sen stn
    let T := smoothTexCoords sen stn
    { sp with
      vertices := V
      normals := N
      texCoords := T
      indices := smoothIndices sen stn
      interleavedVertices := buildInterleavedVertices V N T }
  else
    let V := flatVertices pi c sn sp.radius sen stn
    let N := flatNormals pi c sn sq sp.radius sen stn
    let T := flatTexCoords pi c sn sp.radius sen stn
    { sp with
      vertices := V
      normals := N
      texCoords := T
      indices := flatIndices sen stn
      interleavedVertices := buildInterleavedVertices V N T }

/-- `Sphere.prototype.set(r, se, st, sm)`: store the parameters, clamping
`sectorCount` up to 3 and `stackCount` up to 2, then rebuild. -/
def Sphere.set (pi : K) (c sn sq : K → K) (sp : Sphere K) (r : K) (se st : ℤ)
    (sm : Bool) : Sphere K :=
  Sphere.build pi c sn sq
    { sp with
      radius := r
      sectorCount := if se < 3 then 3 else se
      stackCount := if st < 2 then 2 else st
      smooth := sm }

/-- `Sphere.prototype.setRadius`: rebuild via `set` only when the stored
radius differs from the argument. -/
def Sphere.setRadius (pi : K) (c sn sq : K → K) (sp : Sphere K) (r : K) : Sphere K :=
  if sp.radius ≠ r then Sphere.set pi c sn sq sp r sp.sectorCount sp.stackCount sp.smooth
  else sp

/-- `Sphere.prototype.setSectorCount`: rebuild via `set` only when the stored
(already clamped) sector count differs from the argument. -/
def Sphere.setSectorCount (pi : K) (c sn sq : K → K) (sp : Sphere K) (s : ℤ) : Sphere K :=
  if sp.sectorCount ≠ s then Sphere.set pi c sn sq sp sp.radius s sp.stackCount sp.smooth
  else sp

/-- `Sphere.prototype.setStackCount`: rebuild via `set` only when the stored
(already clamped) stack count differs from the argument. -/
def Sphere.setStackCount (pi : K) (c sn sq : K → K) (sp : Sphere K) (s : ℤ) : Sphere K :=
  if sp.stackCount ≠ s then Sphere.set pi c sn sq sp sp.radius sp.sectorCount s sp.smooth
  else sp

/-- `Sphere.prototype.setSmooth`: when the flag differs, store it and run the
matching builder on the current (already clamped) parameters; `set` is not
called and no re-clamping happens. -/
def Sphere.setSmooth (pi : K) (c sn sq : K → K) (sp : Sphere K) (s : Bool) : Sphere K :=
  if sp.smooth ≠ s then Sphere.build pi c sn sq { sp with smooth := s }
  else sp

/-- C9: `set(r, se, st, sm)` stores `sectorCount = max(3, se)` and
`stackCount = max(2, st)` — sub-floor inputs are silently clamped up, never
rejected — stores `r` and `sm` unchanged, and runs the full rebuild to
completion (the embedding is a total function; no error path exists). -/
theorem set_clamps_parameters (pi : K) (c sn sq : K → K) (sp : Sphere K) (r : K)
    (se st : ℤ) (sm : Bool) :
    (Sphere.set pi c sn sq sp r se st sm).sectorCount = max 3 se ∧
    (Sphere.set pi c sn sq sp r se st sm).stackCount = max 2 st ∧
    (Sphere.set pi c sn sq sp r se st sm).radius = r ∧
    (Sphere.set pi c sn sq sp r se st sm).smooth = sm := by
  unfold Sphere.set Sphere.build
  cases sm <;> simp <;> constructor <;> split_ifs <;> omega

/-- C10: each of the four setters is a no-op (all five arrays and every
other field literally unchanged) when the argument equals the stored
post-clamp value, and otherwise routes through the full rebuild (`set`,
or for `setSmooth` the direct builder call).  In particular a sphere whose
stored (clamped) sectorCount is 3 ignores `setSectorCount 3` but rebuilds
on the sub-floor argument `setSectorCount 2`. -/
theorem setters_rebuild_iff_changed (pi : K) (c sn sq : K → K) (sp : Sphere K)
    (r : K) (se st : ℤ) (sm : Bool) :
    (r = sp.radius → Sphere.setRadius pi c sn sq sp r = sp) ∧
    (se = sp.sectorCount → Sphere.setSectorCount pi c sn sq sp se = sp) ∧
    (st = sp.stackCount → Sphere.setStackCount pi c sn sq sp st = sp) ∧
    (sm = sp.smooth → Sphere.setSmooth pi c sn sq sp sm = sp) ∧
    (r ≠ sp.radius → Sphere.setRadius pi c sn sq sp r
        = Sphere.set pi c sn sq sp r sp.sectorCount sp.stackCount sp.smooth) ∧
    (se ≠ sp.sectorCount → Sphere.setSectorCount pi c sn sq sp se
        = Sphere.set pi c sn sq sp sp.radius se sp.stackCount sp.smooth) ∧
    (st ≠ sp.stackCount → Sphere.setStackCount pi c sn sq sp st
        = Sphere.set pi c sn sq sp sp.radius sp.sectorCount st sp.smooth) ∧
    (sm ≠ sp.smooth → Sphere.setSmooth pi c sn sq sp sm
        = Sphere.build pi c sn sq { sp with smooth := sm }) ∧
    (sp.sectorCount = 3 →
      Sphere.setSectorCount pi c sn sq sp 3 = sp ∧
      Sphere.setSectorCount pi c sn sq sp 2
        = Sphere.set pi c sn sq sp sp.radius 2 sp.stackCount sp.smooth) := by
  refine ⟨?_, ?_, ?_, ?_, ?_, ?_, ?_, ?_, ?_⟩
  · intro h
    unfold Sphere.setRadius
    rw [if_neg (by simp [h])]
  · intro h
    unfold Sphere.setSectorCount
    rw [if_neg (by simp [h])]
  · intro h
    unfold Sphere.setStackCount
    rw [if_neg (by simp [h])]
  · intro h
    unfold Sphere.setSmooth
    rw [if_neg (by simp [h])]
  · intro h
    unfold Sphere.setRadius
    rw [if_pos (Ne.symm h)]
  · intro h
    unfold Sphere.setSectorCount
    rw [if_pos (Ne.symm h)]
  · intro h
    unfold Sphere.setStackCount
    rw [if_pos (Ne.symm h)]
  · intro h
    unfold Sphere.setSmooth
    rw [if_pos (Ne.symm h)]
  · intro h3
    constructor
    · unfold Sphere.setSectorCount
      rw [if_neg (by simp [h3])]
    · unfold Sphere.setSectorCount
      rw [if_pos (by rw [h3]; norm_num)]

/-- A sphere constructed as `new Sphere(gl, 1, 2, 5, true)` over `ℚ` with
placeholder trigonometry: the constructor presets the documented defaults
and then calls `set(1, 2, 5, true)`, which clamps sectorCount up to 3. -/
def exampleSphere : Sphere ℚ :=
  Sphere.set (0 : ℚ) id id id ⟨1, 36, 18, true, [], [], [], [], []⟩ 1 2 5 true

/-- Witness for C10: `exampleSphere` stores sectorCount 3; `setSectorCount 3`
is a no-op while the sub-floor argument `setSectorCount 2` routes through
the full rebuild. -/
theorem setters_rebuild_iff_changed_witness :
    exampleSphere.sectorCount = 3 ∧
    Sphere.setSectorCount (0 : ℚ) id id id exampleSphere 3 = exampleSphere ∧
    Sphere.setSectorCount (0 : ℚ) id id id exampleSphere 2
      = Sphere.set (0 : ℚ) id id id exampleSphere exampleSphere.radius 2
          exampleSphere.stackCount exampleSphere.smooth := by
  have hsc : exampleSphere.sectorCount = 3 := rfl
  have h := (setters_rebuild_iff_changed (0 : ℚ) id id id exampleSphere
      exampleSphere.radius 3 5 true).2.2.2.2.2.2.2.2 hsc
  exact ⟨hsc, h.1, h.2⟩
